import Mathlib

/-!
Shallow embedding of `src/subdomain_enum.py`, a concurrent multi-provider
subdomain-enumeration tool.

Python strings are modelled as `List Char` (`PyStr`), with the relevant string
methods (`lower`, `strip`, `split`, `endswith`, the `in` substring test)
embedded as executable Lean functions.  Each network call
(`requests.get`, possibly followed by `response.json()`) is modelled by an
`Option`-valued input: `none` models any exception raised inside a provider's
`try` block (network error, timeout, unparseable body), which the provider's
`except` clause turns into an empty result; `some` carries the status code and
the (already parsed, for the JSON providers) response payload.  Python `set`
becomes `Finset`, and `sorted` becomes `Finset.sort (· ≤ ·)` with the
lexicographic order on `List Char`.
-/

/-- Model of a Python `str`: a list of characters. -/
abbrev PyStr := List Char

/-- Python `str.lower()` (ASCII model): lowercase every character. -/
def pyLower (s : PyStr) : PyStr := s.map Char.toLower

/-- Python `str.strip()`: remove whitespace from both ends. -/
def pyStrip (s : PyStr) : PyStr :=
  ((s.dropWhile Char.isWhitespace).reverse.dropWhile Char.isWhitespace).reverse

/-- Python `str.split(sep)` for a one-character separator: split at every
occurrence of `sep`, keeping empty pieces (so the result is always nonempty). -/
def pySplit (sep : Char) : PyStr → List PyStr
  | [] => [[]]
  | c :: cs =>
    if c = sep then [] :: pySplit sep cs
    else
      match pySplit sep cs with
      | [] => [[c]]
      | p :: ps => (c :: p) :: ps

/-- A `requests.get` outcome carrying a raw text body (HackerTarget, RapidDNS). -/
structure TextResponse where
  status_code : Nat
  text : PyStr

/-- One record of the crt.sh JSON list; `name_value` is the field read by the
source (`entry.get('name_value', '')`), holding newline-separated names. -/
structure CrtshEntry where
  name_value : PyStr

/-- One record of the AlienVault OTX `passive_dns` list; `hostname` is the field
read by the source (`entry.get('hostname', '')`). -/
structure PassiveDnsEntry where
  hostname : PyStr

/-- `query_crtsh(domain)` from the source.  `resp = none` models a raised
exception (network failure, timeout, or `response.json()` failing on an
unparseable body); `resp = some (status_code, data)` models a completed fetch
whose JSON body parsed to `data`.  For each entry, `name_value` is split on
newlines, each name is stripped and lowercased, and it is kept when it ends
with the domain and contains no `'*'`. -/
def query_crtsh (domain : PyStr) (resp : Option (Nat × List CrtshEntry)) :
    Finset PyStr :=
  match resp with
  | none => ∅
  | some (status_code, data) =>
    if status_code = 200 then
      (data.flatMap fun entry =>
        (pySplit '\n' entry.name_value).filterMap fun name0 =>
          let name := pyLower (pyStrip name0)
          if domain <:+ name ∧ '*' ∉ name then some name else none).toFinset
    else ∅

/-- The literal `"error"` tested by `query_hackertarget` against the lowercased
response body (`"error" in response.text.lower()`). -/
def errorLit : PyStr := ['e', 'r', 'r', 'o', 'r']

/-- `query_hackertarget(domain)` from the source.  The body is processed only
when the status is 200 and the lowercased body does not contain the substring
`"error"`; then every line containing a comma contributes its first
comma-separated field, stripped and lowercased, when it ends with the domain. -/
def query_hackertarget (domain : PyStr) (resp : Option TextResponse) :
    Finset PyStr :=
  match resp with
  | none => ∅
  | some r =>
    if r.status_code = 200 ∧ ¬ (errorLit <:+: pyLower r.text) then
      ((pySplit '\n' r.text).filterMap fun line =>
        if ',' ∈ line then
          let subdomain := pyLower (pyStrip ((pySplit ',' line).headD []))
          if domain <:+ subdomain then some subdomain else none
        else none).toFinset
    else ∅

/-- One character of the regex character class `[\w.-]` used by
`query_rapiddns` (ASCII model of `\w`: alphanumeric or underscore). -/
def reClassChar (c : Char) : Bool :=
  c.isAlphanum || c = '_' || c = '.' || c = '-'

/-- Case-insensitive literal match of the pattern `pat` against the front of
`s`, modelling `re.IGNORECASE` matching of the `re.escape(domain)` literal. -/
def startsWithCI : PyStr → PyStr → Bool
  | _, [] => true
  | [], _ :: _ => false
  | c :: cs, d :: ds => (c.toLower == d.toLower) && startsWithCI cs ds

/-- Backtracking matcher for the pattern `[\w.-]+\.<domain>` anchored at the
front of `s`: the greedy `+` first consumes `n` class characters and then backs
off (`n, n-1, ..., 1`) until the remainder starts with a literal `'.'` followed
by the domain (case-insensitively).  On success, returns the matched text and
the rest of the input after the match. -/
def tryLen (s dom : PyStr) : Nat → Option (PyStr × PyStr)
  | 0 => none
  | n + 1 =>
    match s.drop (n + 1) with
    | '.' :: rest =>
      if startsWithCI rest dom then
        some (s.take (n + 1) ++ '.' :: rest.take dom.length, rest.drop dom.length)
      else tryLen s dom n
    | _ => tryLen s dom n

/-- Attempt to match `[\w.-]+\.<domain>` at the front of `s`, starting from the
maximal run of class characters (the greedy attempt). -/
def tryMatch (s dom : PyStr) : Option (PyStr × PyStr) :=
  tryLen s dom (s.takeWhile reClassChar).length

/-- `re.findall(r'[\w\.-]+\.<escaped domain>', text, re.IGNORECASE)`:
left-to-right scan producing non-overlapping matches; on a failed match the
scan advances one character.  `fuel` bounds the recursion; `text.length` is
always sufficient because every step consumes at least one character. -/
def reFindAll : Nat → PyStr → PyStr → List PyStr
  | 0, _, _ => []
  | _ + 1, [], _ => []
  | fuel + 1, c :: cs, dom =>
    match tryMatch (c :: cs) dom with
    | some (m, rest) => m :: reFindAll fuel rest dom
    | none => reFindAll fuel cs dom

/-- `query_rapiddns(domain)` from the source: on a 200 response, every regex
match of `[\w\.-]+\.<domain>` in the body is lowercased and collected. -/
def query_rapiddns (domain : PyStr) (resp : Option TextResponse) : Finset PyStr :=
  match resp with
  | none => ∅
  | some r =>
    if r.status_code = 200 then
      ((reFindAll r.text.length r.text domain).map pyLower).toFinset
    else ∅

/-- `query_alienvault(domain)` from the source: on a 200 response whose JSON
body parsed, each `passive_dns` entry's `hostname` is lowercased (not stripped)
and kept when it ends with the domain. -/
def query_alienvault (domain : PyStr) (resp : Option (Nat × List PassiveDnsEntry)) :
    Finset PyStr :=
  match resp with
  | none => ∅
  | some (status_code, data) =>
    if status_code = 200 then
      (data.filterMap fun entry =>
        let hostname := pyLower entry.hostname
        if domain <:+ hostname then some hostname else none).toFinset
    else ∅

/-- The merge loop of `enumerate_subdomains`: `all_subdomains.update(result)`
applied to each completed provider's set in completion order. -/
def mergeResults (results : List (Finset PyStr)) : Finset PyStr :=
  results.foldl (· ∪ ·) ∅

/-- `enumerate_subdomains(domain)` from the source: run the four providers and
merge their result sets.  The per-provider `resp` inputs model the outcomes of
the four concurrent fetches. -/
def enumerate_subdomains (domain : PyStr)
    (crtsh : Option (Nat × List CrtshEntry)) (hackertarget : Option TextResponse)
    (rapiddns : Option TextResponse) (alienvault : Option (Nat × List PassiveDnsEntry)) :
    Finset PyStr :=
  mergeResults [query_crtsh domain crtsh, query_hackertarget domain hackertarget,
    query_rapiddns domain rapiddns, query_alienvault domain alienvault]

/-- Python `sorted(...)` on a set of strings: the ascending lexicographically
sorted listing of the set. -/
def sorted_subdomains (s : Finset PyStr) : List PyStr :=
  s.sort (· ≤ ·)

/-- The result-producing path of `main()`: normalize the domain argument with
`args.domain.lower().strip()`, run `enumerate_subdomains`, and sort.  The
source performs no validation of the domain (no emptiness check) before
dispatching the providers. -/
def mainRun (domainArg : PyStr)
    (crtsh : Option (Nat × List CrtshEntry)) (hackertarget : Option TextResponse)
    (rapiddns : Option TextResponse) (alienvault : Option (Nat × List PassiveDnsEntry)) :
    List PyStr :=
  let domain := pyStrip (pyLower domainArg)
  sorted_subdomains (enumerate_subdomains domain crtsh hackertarget rapiddns alienvault)

theorem charToNat_ofNat {n : Nat} (h : n.isValidChar) : (Char.ofNat n).toNat = n := by
  rw [Char.ofNat, dif_pos h]
  rfl

theorem toLower_toNat_of_upper {c : Char} (h65 : 65 ≤ c.toNat) (h90 : c.toNat ≤ 90) :
    (Char.toLower c).toNat = c.toNat + 32 := by
  unfold Char.toLower
  rw [if_pos ⟨h65, h90⟩]
  exact charToNat_ofNat (Or.inl (by omega))

theorem toLower_of_not_upper {c : Char} (h : ¬ (65 ≤ c.toNat ∧ c.toNat ≤ 90)) :
    Char.toLower c = c := by
  unfold Char.toLower
  rw [if_neg h]

theorem toLower_idem (c : Char) : (Char.toLower c).toLower = Char.toLower c := by
  by_cases h : 65 ≤ c.toNat ∧ c.toNat ≤ 90
  · have h2 := toLower_toNat_of_upper h.1 h.2
    exact toLower_of_not_upper (by omega)
  · rw [toLower_of_not_upper h]
    exact toLower_of_not_upper h

theorem isAlphanum_toNat (c : Char) : c.isAlphanum = true ↔
    (48 ≤ c.toNat ∧ c.toNat ≤ 57) ∨ (65 ≤ c.toNat ∧ c.toNat ≤ 90) ∨
      (97 ≤ c.toNat ∧ c.toNat ≤ 122) := by
  simp [Char.isAlphanum, Char.isAlpha, Char.isUpper, Char.isLower, Char.isDigit,
    Char.toNat, UInt32.toNat, UInt32.le_def, BitVec.le_def]
  omega

theorem toNat_star : ('*').toNat = 42 := by decide

theorem eq_star_of_toLower_eq_star {c : Char} (h : Char.toLower c = '*') : c = '*' := by
  by_cases hu : 65 ≤ c.toNat ∧ c.toNat ≤ 90
  · have h2 := toLower_toNat_of_upper hu.1 hu.2
    rw [h] at h2
    simp [toNat_star] at h2
    omega
  · rwa [toLower_of_not_upper hu] at h

theorem reClassChar_toLower {c : Char} (h : reClassChar c = true) :
    reClassChar (Char.toLower c) = true := by
  by_cases hu : 65 ≤ c.toNat ∧ c.toNat ≤ 90
  · have h2 := toLower_toNat_of_upper hu.1 hu.2
    have h3 : (Char.toLower c).isAlphanum = true :=
      (isAlphanum_toNat _).2 (Or.inr (Or.inr (by omega)))
    simp [reClassChar, h3]
  · rwa [toLower_of_not_upper hu]

theorem pyLower_idem (s : PyStr) : pyLower (pyLower s) = pyLower s := by
  simp [pyLower, List.map_map, Function.comp_def, toLower_idem]

theorem startsWithCI_spec : ∀ (pat s : PyStr), startsWithCI s pat = true →
    pat.length ≤ s.length ∧ pyLower (s.take pat.length) = pyLower pat := by
  intro pat
  induction pat with
  | nil => intro s _; simp [pyLower]
  | cons d ds ih =>
    intro s h
    cases s with
    | nil => simp [startsWithCI] at h
    | cons c cs =>
      simp only [startsWithCI, Bool.and_eq_true, beq_iff_eq] at h
      obtain ⟨hl, ht⟩ := ih cs h.2
      refine ⟨by simpa using Nat.succ_le_succ hl, ?_⟩
      simp [pyLower, List.take_succ_cons] at ht ⊢
      exact ⟨h.1, ht⟩

theorem tryLen_shape : ∀ (n : Nat) (s dom m rest : PyStr),
    tryLen s dom n = some (m, rest) →
    n ≤ (s.takeWhile reClassChar).length →
    ∃ p tl, m = p ++ '.' :: tl ∧ p ≠ [] ∧ (∀ c ∈ p, reClassChar c = true) ∧
      pyLower tl = pyLower dom := by
  intro n
  induction n with
  | zero => intro s dom m rest h _; simp [tryLen] at h
  | succ n ih =>
    intro s dom m rest h hle
    rw [tryLen] at h
    split at h
    case h_1 rest1 heq =>
      split at h
      case isTrue hci =>
        simp only [Option.some.injEq, Prod.mk.injEq] at h
        obtain ⟨hm, hrest⟩ := h
        have hlen : n + 1 ≤ s.length := by
          by_contra hc
          rw [List.drop_eq_nil_of_le (by omega)] at heq
          exact List.cons_ne_nil _ _ heq.symm
        refine ⟨s.take (n + 1), rest1.take dom.length, hm.symm, ?_, ?_, ?_⟩
        · have : (s.take (n + 1)).length = n + 1 := by
            rw [List.length_take]; omega
          intro hnil
          rw [hnil] at this
          simp at this
        · intro c hc
          have htp : s.takeWhile reClassChar <+: s := List.takeWhile_prefix _
          have htw : s.takeWhile reClassChar = s.take ((s.takeWhile reClassChar).length) :=
            List.prefix_iff_eq_take.mp htp
          have hp : s.take (n + 1) = (s.takeWhile reClassChar).take (n + 1) := by
            rw [htw, List.take_take, Nat.min_eq_left hle]
          have htk : (s.takeWhile reClassChar).take (n + 1) <+: s.takeWhile reClassChar :=
            List.take_prefix _ _
          rw [hp] at hc
          exact List.mem_takeWhile_imp (htk.subset hc)
        · exact (startsWithCI_spec dom rest1 hci).2
      case isFalse => exact ih s dom m rest h (by omega)
    case h_2 => exact ih s dom m rest h (by omega)

theorem reFindAll_shape : ∀ (fuel : Nat) (s dom m : PyStr), m ∈ reFindAll fuel s dom →
    ∃ p tl, m = p ++ '.' :: tl ∧ p ≠ [] ∧ (∀ c ∈ p, reClassChar c = true) ∧
      pyLower tl = pyLower dom := by
  intro fuel
  induction fuel with
  | zero => intro s dom m hm; simp [reFindAll] at hm
  | succ fuel ih =>
    intro s dom m hm
    cases s with
    | nil => simp [reFindAll] at hm
    | cons c cs =>
      rw [reFindAll] at hm
      cases htm : tryMatch (c :: cs) dom with
      | none => rw [htm] at hm; exact ih _ _ _ hm
      | some pr =>
        obtain ⟨m1, rest⟩ := pr
        rw [htm] at hm
        simp only [List.mem_cons] at hm
        rcases hm with rfl | hm
        · exact tryLen_shape _ _ _ _ _ htm (Nat.le_refl _)
        · exact ih _ _ _ hm

theorem rapiddns_mem_shape {domain : PyStr} {r : TextResponse} {h : PyStr}
    (hm : h ∈ query_rapiddns domain (some r)) :
    ∃ p, p ≠ [] ∧ (∀ c ∈ p, reClassChar c = true) ∧
      h = p ++ '.' :: pyLower domain := by
  simp only [query_rapiddns] at hm
  split at hm
  · rw [List.mem_toFinset, List.mem_map] at hm
    obtain ⟨m, hm1, rfl⟩ := hm
    obtain ⟨p, tl, rfl, hp, hcls, hlow⟩ := reFindAll_shape _ _ _ _ hm1
    refine ⟨pyLower p, ?_, ?_, ?_⟩
    · simpa [pyLower] using hp
    · intro c hc
      rw [pyLower, List.mem_map] at hc
      obtain ⟨c0, hc0, rfl⟩ := hc
      exact reClassChar_toLower (hcls c0 hc0)
    · show pyLower (p ++ '.' :: tl) = _
      rw [pyLower, List.map_append]
      simp only [List.map_cons]
      rw [show Char.toLower '.' = '.' from rfl]
      rw [show (List.map Char.toLower tl : PyStr) = pyLower tl from rfl, hlow]
      rfl
  · simp at hm

theorem mem_query_crtsh {domain h : PyStr} {st : Nat} {data : List CrtshEntry} :
    h ∈ query_crtsh domain (some (st, data)) ↔
      st = 200 ∧ ∃ e ∈ data, ∃ nm ∈ pySplit '\n' e.name_value,
        h = pyLower (pyStrip nm) ∧ domain <:+ h ∧ '*' ∉ h := by
  simp only [query_crtsh]
  split
  case isTrue hst =>
    constructor
    · intro hmem
      rw [List.mem_toFinset, List.mem_flatMap] at hmem
      obtain ⟨e, he, hmem⟩ := hmem
      rw [List.mem_filterMap] at hmem
      obtain ⟨nm, hnm, hf⟩ := hmem
      refine ⟨hst, e, he, nm, hnm, ?_⟩
      split at hf
      case isTrue hcond =>
        rw [Option.some.injEq] at hf
        subst hf
        exact ⟨rfl, hcond.1, hcond.2⟩
      case isFalse => exact absurd hf (by simp)
    · rintro ⟨-, e, he, nm, hnm, rfl, hsuf, hstar⟩
      rw [List.mem_toFinset, List.mem_flatMap]
      refine ⟨e, he, ?_⟩
      rw [List.mem_filterMap]
      exact ⟨nm, hnm, by rw [if_pos ⟨hsuf, hstar⟩]⟩
  case isFalse hst =>
    simp only [Finset.not_mem_empty, false_iff]
    intro hc
    exact hst hc.1

theorem mem_query_hackertarget {domain h : PyStr} {r : TextResponse} :
    h ∈ query_hackertarget domain (some r) ↔
      (r.status_code = 200 ∧ ¬ (errorLit <:+: pyLower r.text)) ∧
        ∃ line ∈ pySplit '\n' r.text, ',' ∈ line ∧
          h = pyLower (pyStrip ((pySplit ',' line).headD [])) ∧ domain <:+ h := by
  simp only [query_hackertarget]
  split
  case isTrue hok =>
    constructor
    · intro hmem
      rw [List.mem_toFinset, List.mem_filterMap] at hmem
      obtain ⟨line, hline, hf⟩ := hmem
      refine ⟨hok, line, hline, ?_⟩
      split at hf
      case isTrue hcomma =>
        split at hf
        case isTrue hsuf =>
          rw [Option.some.injEq] at hf
          subst hf
          exact ⟨hcomma, rfl, hsuf⟩
        case isFalse => exact absurd hf (by simp)
      case isFalse => exact absurd hf (by simp)
    · rintro ⟨-, line, hline, hcomma, rfl, hsuf⟩
      rw [List.mem_toFinset, List.mem_filterMap]
      exact ⟨line, hline, by rw [if_pos hcomma, if_pos hsuf]⟩
  case isFalse hok =>
    simp only [Finset.not_mem_empty, false_iff]
    intro hc
    exact hok hc.1

theorem mem_query_alienvault {domain h : PyStr} {st : Nat} {data : List PassiveDnsEntry} :
    h ∈ query_alienvault domain (some (st, data)) ↔
      st = 200 ∧ ∃ e ∈ data, h = pyLower e.hostname ∧ domain <:+ h := by
  simp only [query_alienvault]
  split
  case isTrue hst =>
    constructor
    · intro hmem
      rw [List.mem_toFinset, List.mem_filterMap] at hmem
      obtain ⟨e, he, hf⟩ := hmem
      refine ⟨hst, e, he, ?_⟩
      split at hf
      case isTrue hsuf =>
        rw [Option.some.injEq] at hf
        subst hf
        exact ⟨rfl, hsuf⟩
      case isFalse => exact absurd hf (by simp)
    · rintro ⟨-, e, he, rfl, hsuf⟩
      rw [List.mem_toFinset, List.mem_filterMap]
      exact ⟨e, he, by rw [if_pos hsuf]⟩
  case isFalse hst =>
    simp only [Finset.not_mem_empty, false_iff]
    intro hc
    exact hst hc.1

theorem foldl_union_mem (rs : List (Finset PyStr)) (acc : Finset PyStr) (h : PyStr) :
    h ∈ rs.foldl (· ∪ ·) acc ↔ h ∈ acc ∨ ∃ s ∈ rs, h ∈ s := by
  induction rs generalizing acc with
  | nil => simp
  | cons s rs ih =>
    simp only [List.foldl_cons, ih, Finset.mem_union, List.mem_cons]
    constructor
    · rintro (⟨ha | hs⟩ | ⟨t, ht, hmem⟩)
      · exact Or.inl ha
      · exact Or.inr ⟨s, Or.inl rfl, hs⟩
      · exact Or.inr ⟨t, Or.inr ht, hmem⟩
    · rintro (ha | ⟨t, rfl | ht, hmem⟩)
      · exact Or.inl (Or.inl ha)
      · exact Or.inl (Or.inr hmem)
      · exact Or.inr ⟨t, ht, hmem⟩

theorem mem_mergeResults {rs : List (Finset PyStr)} {h : PyStr} :
    h ∈ mergeResults rs ↔ ∃ s ∈ rs, h ∈ s := by
  rw [mergeResults, foldl_union_mem]
  simp

theorem mergeResults_perm {l₁ l₂ : List (Finset PyStr)} (hp : l₁.Perm l₂) :
    mergeResults l₁ = mergeResults l₂ :=
  hp.foldl_eq' (fun x _ y _ z => Finset.union_right_comm z x y) ∅

theorem enumerate_eq_union (domain : PyStr) (rc : Option (Nat × List CrtshEntry))
    (rh rr : Option TextResponse) (ra : Option (Nat × List PassiveDnsEntry)) :
    enumerate_subdomains domain rc rh rr ra =
      query_crtsh domain rc ∪ query_hackertarget domain rh ∪
        query_rapiddns domain rr ∪ query_alienvault domain ra := by
  simp [enumerate_subdomains, mergeResults, Finset.union_assoc]

/-- Claim C1: for every Domain, a provider that fails (exception, modelled by a
`none` response, or a non-success status code) contributes the empty set; the
enumeration always equals the union of the four providers' sets, so it
completes with the successful providers' union, and with every provider
failing it is empty (and its sorted listing is `[]`) rather than an error. -/
theorem C1_provider_failure_isolated (domain : PyStr) :
    (query_crtsh domain none = ∅ ∧ query_hackertarget domain none = ∅ ∧
      query_rapiddns domain none = ∅ ∧ query_alienvault domain none = ∅) ∧
    (∀ (st : Nat) (data : List CrtshEntry), st ≠ 200 →
      query_crtsh domain (some (st, data)) = ∅) ∧
    (∀ r : TextResponse, r.status_code ≠ 200 →
      query_hackertarget domain (some r) = ∅) ∧
    (∀ r : TextResponse, r.status_code ≠ 200 →
      query_rapiddns domain (some r) = ∅) ∧
    (∀ (st : Nat) (data : List PassiveDnsEntry), st ≠ 200 →
      query_alienvault domain (some (st, data)) = ∅) ∧
    (∀ (rc : Option (Nat × List CrtshEntry)) (rh rr : Option TextResponse)
        (ra : Option (Nat × List PassiveDnsEntry)),
      enumerate_subdomains domain rc rh rr ra =
        query_crtsh domain rc ∪ query_hackertarget domain rh ∪
          query_rapiddns domain rr ∪ query_alienvault domain ra) ∧
    enumerate_subdomains domain none none none none = ∅ ∧
    sorted_subdomains (enumerate_subdomains domain none none none none) = [] := by
  have h5 : enumerate_subdomains domain none none none none = ∅ := by
    rw [enumerate_eq_union]; rfl
  refine ⟨⟨rfl, rfl, rfl, rfl⟩, ?_, ?_, ?_, ?_, enumerate_eq_union domain, h5, ?_⟩
  · intro st data hst
    simp only [query_crtsh]
    rw [if_neg hst]
  · intro r hst
    simp only [query_hackertarget]
    rw [if_neg (fun hc => hst hc.1)]
  · intro r hst
    simp only [query_rapiddns]
    rw [if_neg hst]
  · intro st data hst
    simp only [query_alienvault]
    rw [if_neg hst]
  · rw [h5, sorted_subdomains]
    exact Finset.sort_empty _

/-- Witness for C1: the non-success-status hypotheses discharged at concrete
404/500/403/429 responses. -/
theorem C1_witness :
    query_crtsh "example.com".data (some (404, [⟨"a.example.com".data⟩])) = ∅ ∧
    query_hackertarget "example.com".data (some ⟨500, "a.example.com,1.1.1.1".data⟩) = ∅ ∧
    query_rapiddns "example.com".data (some ⟨403, "a.example.com".data⟩) = ∅ ∧
    query_alienvault "example.com".data (some (429, [⟨"a.example.com".data⟩])) = ∅ :=
  ⟨(C1_provider_failure_isolated "example.com".data).2.1 404 [⟨"a.example.com".data⟩]
      (by decide),
    (C1_provider_failure_isolated "example.com".data).2.2.1
      ⟨500, "a.example.com,1.1.1.1".data⟩ (by decide),
    (C1_provider_failure_isolated "example.com".data).2.2.2.1
      ⟨403, "a.example.com".data⟩ (by decide),
    (C1_provider_failure_isolated "example.com".data).2.2.2.2.1 429
      [⟨"a.example.com".data⟩] (by decide)⟩

/-- Claim C4: for every collection of provider result sets, the merged and
sorted output is invariant under permutation of the collection (the order in
which providers complete), and it is sorted in ascending lexicographic order
(`List.Lex (· < ·)` on the characters). -/
theorem C4_deterministic_sorted_output (l₁ l₂ : List (Finset PyStr)) (hp : l₁.Perm l₂) :
    sorted_subdomains (mergeResults l₁) = sorted_subdomains (mergeResults l₂) ∧
      List.Sorted (List.Lex (· < ·)) (sorted_subdomains (mergeResults l₁)) := by
  constructor
  · rw [sorted_subdomains, sorted_subdomains, mergeResults_perm hp]
  · have hs := Finset.sort_sorted_lt (mergeResults l₁)
    exact hs.imp (fun {a b} hab => hab)

/-- Witness for C4: the permutation hypothesis discharged on the concrete
two-element collection `[{"a"}, {"b"}]` versus `[{"b"}, {"a"}]`. -/
theorem C4_witness :
    List.Perm [({['a']} : Finset PyStr), {['b']}] [{['b']}, {['a']}] ∧
      (sorted_subdomains (mergeResults [({['a']} : Finset PyStr), {['b']}]) =
          sorted_subdomains (mergeResults [{['b']}, {['a']}]) ∧
        List.Sorted (List.Lex (· < ·))
          (sorted_subdomains (mergeResults [({['a']} : Finset PyStr), {['b']}]))) :=
  ⟨by decide, C4_deterministic_sorted_output _ _ (by decide)⟩

/-- A list without duplicates that contains `a` contains it exactly once. -/
theorem countP_eq_one_of_nodup_mem {l : List PyStr} {a : PyStr} (hn : l.Nodup) (hm : a ∈ l) :
    (l.countP fun x => x = a) = 1 := by
  induction l with
  | nil => simp at hm
  | cons b bs ih =>
    rw [List.countP_cons]
    rcases List.mem_cons.mp hm with rfl | hm2
    · have hz : bs.countP (fun x => x = a) = 0 := by
        rw [List.countP_eq_zero]
        intro x hx
        simp only [decide_eq_true_eq]
        rintro rfl
        exact (List.nodup_cons.mp hn).1 hx
      simp [hz]
    · have hne : b ≠ a := by rintro rfl; exact (List.nodup_cons.mp hn).1 hm2
      rw [ih (List.nodup_cons.mp hn).2 hm2]
      simp [hne]

/-- Claim C5: if two providers (here crt.sh and HackerTarget) both report the
same hostname up to letter case, the reported values are in fact equal and
already lowercase (normalization happens in extraction), and the final merged
sorted result contains exactly one entry for it. -/
theorem C5_dedup_lowercase (domain : PyStr) (rc : Option (Nat × List CrtshEntry))
    (rh rr : Option TextResponse) (ra : Option (Nat × List PassiveDnsEntry))
    (h1 h2 : PyStr)
    (hm1 : h1 ∈ query_crtsh domain rc) (hm2 : h2 ∈ query_hackertarget domain rh)
    (hlow : pyLower h1 = pyLower h2) :
    h1 = h2 ∧ pyLower h1 = h1 ∧
      ((sorted_subdomains (enumerate_subdomains domain rc rh rr ra)).countP fun x => x = h1) = 1 := by
  have hfix1 : pyLower h1 = h1 := by
    cases rc with
    | none => simp [query_crtsh] at hm1
    | some pr =>
      obtain ⟨st, data⟩ := pr
      obtain ⟨-, e, -, nm, -, rfl, -, -⟩ := mem_query_crtsh.mp hm1
      exact pyLower_idem _
  have hfix2 : pyLower h2 = h2 := by
    cases rh with
    | none => simp [query_hackertarget] at hm2
    | some r =>
      obtain ⟨-, line, -, -, rfl, -⟩ := mem_query_hackertarget.mp hm2
      exact pyLower_idem _
  have heq : h1 = h2 := by rw [← hfix1, hlow, hfix2]
  refine ⟨heq, hfix1, ?_⟩
  have hmem : h1 ∈ enumerate_subdomains domain rc rh rr ra := by
    rw [enumerate_eq_union]
    simp only [Finset.mem_union]
    exact Or.inl (Or.inl (Or.inl hm1))
  exact countP_eq_one_of_nodup_mem (Finset.sort_nodup _ _) ((Finset.mem_sort (α := PyStr) (· ≤ ·)).mpr hmem)

/-- Witness for C5: crt.sh reports `WWW.example.com`, HackerTarget reports
`www.example.com`; the merged result counts `www.example.com` once. -/
theorem C5_witness :
    "www.example.com".data ∈ query_crtsh "example.com".data
        (some (200, [⟨"WWW.example.com".data⟩])) ∧
    "www.example.com".data ∈ query_hackertarget "example.com".data
        (some ⟨200, "www.example.com,93.184.216.34".data⟩) ∧
    ("www.example.com".data = "www.example.com".data ∧
      pyLower "www.example.com".data = "www.example.com".data ∧
      ((sorted_subdomains (enumerate_subdomains "example.com".data
          (some (200, [⟨"WWW.example.com".data⟩]))
          (some ⟨200, "www.example.com,93.184.216.34".data⟩) none none)).countP
        fun x => x = "www.example.com".data) = 1) :=
  ⟨by decide, by decide,
    C5_dedup_lowercase "example.com".data (some (200, [⟨"WWW.example.com".data⟩]))
      (some ⟨200, "www.example.com,93.184.216.34".data⟩) none none
      "www.example.com".data "www.example.com".data (by decide) (by decide) (by decide)⟩

/-- Claim C2 counterexample: the delimited-line extractor (HackerTarget) does
not reject wildcard candidates: on the line `*.example.com,93.184.216.34` it
keeps `*.example.com`, which contains `'*'`, refuting the claim that every
extraction strategy rejects candidates containing `'*'`. -/
theorem C2_counterexample :
    "*.example.com".data ∈ query_hackertarget "example.com".data
        (some ⟨200, "*.example.com,93.184.216.34".data⟩) ∧
      '*' ∈ "*.example.com".data := by decide

/-- The regex class `[\w.-]` does not contain `'*'`. -/
theorem reClassChar_star : reClassChar '*' = false := by decide

/-- Claim C2 amended: every hostname in any provider's result ends with the
Domain (for the pattern-scan provider given that the Domain is lowercase, as
`main` guarantees); the `'*'` rejection holds only for the
certificate-transparency extractor (explicit check) and the pattern-scan
extractor (whose pattern cannot produce `'*'` when the Domain contains none);
the delimited-line and passive-DNS extractors apply no `'*'` filter. -/
theorem C2_amended (domain : PyStr) (hlow : pyLower domain = domain) (hstar : '*' ∉ domain)
    (rc : Option (Nat × List CrtshEntry)) (rh rr : Option TextResponse)
    (ra : Option (Nat × List PassiveDnsEntry)) (h : PyStr) :
    (h ∈ query_crtsh domain rc → domain <:+ h ∧ '*' ∉ h) ∧
    (h ∈ query_hackertarget domain rh → domain <:+ h) ∧
    (h ∈ query_rapiddns domain rr → domain <:+ h ∧ '*' ∉ h) ∧
    (h ∈ query_alienvault domain ra → domain <:+ h) := by
  refine ⟨?_, ?_, ?_, ?_⟩
  · intro hm
    cases rc with
    | none => simp [query_crtsh] at hm
    | some pr =>
      obtain ⟨st, data⟩ := pr
      obtain ⟨-, e, -, nm, -, -, hsuf, hst⟩ := mem_query_crtsh.mp hm
      exact ⟨hsuf, hst⟩
  · intro hm
    cases rh with
    | none => simp [query_hackertarget] at hm
    | some r =>
      obtain ⟨-, line, -, -, -, hsuf⟩ := mem_query_hackertarget.mp hm
      exact hsuf
  · intro hm
    cases rr with
    | none => simp [query_rapiddns] at hm
    | some r =>
      obtain ⟨p, hp, hcls, hshape⟩ := rapiddns_mem_shape hm
      rw [hlow] at hshape
      subst hshape
      constructor
      · exact (List.suffix_cons '.' domain).trans (List.suffix_append _ _)
      · intro hmem
        rcases List.mem_append.mp hmem with hin | hin
        · have := hcls _ hin
          rw [reClassChar_star] at this
          exact Bool.false_ne_true this
        · rcases List.mem_cons.mp hin with heq | hin2
          · exact absurd heq (by decide)
          · exact hstar hin2
  · intro hm
    cases ra with
    | none => simp [query_alienvault] at hm
    | some pr =>
      obtain ⟨st, data⟩ := pr
      obtain ⟨-, e, -, -, hsuf⟩ := mem_query_alienvault.mp hm
      exact hsuf

/-- Witness for C2 amended: discharged for crt.sh membership of
`www.example.com` with Domain `example.com`. -/
theorem C2_amended_witness :
    "example.com".data <:+ "www.example.com".data ∧ '*' ∉ "www.example.com".data :=
  (C2_amended "example.com".data (by decide) (by decide)
      (some (200, [⟨"www.EXAMPLE.com".data⟩])) none none none "www.example.com".data).1
    (by decide)

/-- Claim C3 (code-bug evidence): the source performs no validation of the
domain argument; with an empty domain the run does not fail fast but proceeds
to dispatch the providers, every suffix check is vacuously true, and a
provider response yields a normal non-empty result. -/
theorem C3_empty_domain_runs :
    mainRun [] none (some ⟨200, "whatever.xyz,1.1.1.1".data⟩) none none
      = ["whatever.xyz".data] := by
  have h1 : enumerate_subdomains [] none (some ⟨200, "whatever.xyz,1.1.1.1".data⟩) none none
      = {"whatever.xyz".data} := by decide
  show sorted_subdomains (enumerate_subdomains (pyStrip (pyLower []))
      none (some ⟨200, "whatever.xyz,1.1.1.1".data⟩) none none) = _
  rw [show pyStrip (pyLower []) = ([] : PyStr) from rfl, h1, sorted_subdomains]
  exact Finset.sort_singleton _ _

/-- Claim C6: the delimited-line provider on body
`sub.example.com,93.184.216.34` yields exactly `{sub.example.com}`; and if the
literal text `error` occurs anywhere in a response body, that provider's entire
result is discarded (empty set), not just the offending line. -/
theorem C6_delimited_line (domain : PyStr) (r : TextResponse)
    (herr : errorLit <:+: r.text) :
    query_hackertarget "example.com".data
        (some ⟨200, "sub.example.com,93.184.216.34".data⟩)
      = {"sub.example.com".data} ∧
    query_hackertarget domain (some r) = ∅ := by
  refine ⟨by decide, ?_⟩
  simp only [query_hackertarget]
  rw [if_neg]
  rintro ⟨-, hno⟩
  apply hno
  have hmap := List.IsInfix.map Char.toLower herr
  rw [show errorLit.map Char.toLower = errorLit from rfl] at hmap
  exact hmap

/-- Witness for C6: the `error`-occurrence hypothesis discharged on the
concrete body `api count error`. -/
theorem C6_witness :
    query_hackertarget "example.com".data
        (some ⟨200, "sub.example.com,93.184.216.34".data⟩)
      = {"sub.example.com".data} ∧
    query_hackertarget "example.com".data (some ⟨200, "api count error".data⟩) = ∅ :=
  C6_delimited_line "example.com".data ⟨200, "api count error".data⟩ (by decide)

/-- Claim C7 counterexample: the passive-DNS aggregator (AlienVault) extractor
lowercases but does not trim: the entry hostname ` sub.EXAMPLE.com` (with a
leading space) is admitted as ` sub.example.com`, which is not trimmed of
surrounding whitespace, refuting the claim for that structured-list provider. -/
theorem C7_counterexample :
    " sub.example.com".data ∈ query_alienvault "example.com".data
        (some (200, [⟨" sub.EXAMPLE.com".data⟩])) ∧
      pyStrip " sub.example.com".data ≠ " sub.example.com".data := by decide

/-- Claim C7 amended: in the certificate-transparency extractor every kept
hostname is the trim-then-lowercase of a newline-separated name from a record
field, while in the passive-DNS aggregator it is only the lowercase (no trim)
of the record's hostname field; outputs of both are lowercase. -/
theorem C7_structured_normalization (domain : PyStr) (st st2 : Nat)
    (data : List CrtshEntry) (es : List PassiveDnsEntry) (h : PyStr) :
    (h ∈ query_crtsh domain (some (st, data)) →
      (∃ e ∈ data, ∃ nm ∈ pySplit '\n' e.name_value, h = pyLower (pyStrip nm)) ∧
        pyLower h = h) ∧
    (h ∈ query_alienvault domain (some (st2, es)) →
      (∃ e ∈ es, h = pyLower e.hostname) ∧ pyLower h = h) := by
  constructor
  · intro hm
    obtain ⟨-, e, he, nm, hnm, rfl, -, -⟩ := mem_query_crtsh.mp hm
    exact ⟨⟨e, he, nm, hnm, rfl⟩, pyLower_idem _⟩
  · intro hm
    obtain ⟨-, e, he, rfl, -⟩ := mem_query_alienvault.mp hm
    exact ⟨⟨e, he, rfl⟩, pyLower_idem _⟩

/-- Witness for C7 amended: discharged at a concrete crt.sh record whose
name needs both trimming and lowercasing. -/
theorem C7_witness :
    ((∃ e ∈ [(⟨" WWW.example.com".data⟩ : CrtshEntry)],
        ∃ nm ∈ pySplit '\n' e.name_value,
          "www.example.com".data = pyLower (pyStrip nm)) ∧
      pyLower "www.example.com".data = "www.example.com".data) :=
  (C7_structured_normalization "example.com".data 200 200
      [⟨" WWW.example.com".data⟩] [] "www.example.com".data).1 (by decide)

/-- Claim C8: the suffix filter is a plain string-suffix check with no
dot-boundary requirement: for Domain `example.com`, the candidate
`notexample.com` is kept by both the structured-list (crt.sh) and the
delimited-line (HackerTarget) extractors. -/
theorem C8_loose_suffix_match :
    "notexample.com".data ∈ query_crtsh "example.com".data
        (some (200, [⟨"notexample.com".data⟩])) ∧
    "notexample.com".data ∈ query_hackertarget "example.com".data
        (some ⟨200, "notexample.com,93.184.216.34".data⟩) := by decide

/-- Claim C10: every hostname produced by the pattern-scan extractor
(RapidDNS) has the form `<one or more word/dot/hyphen characters>.<domain>`
(given a lowercase Domain, as `main` guarantees); hence it never returns the
bare root domain, and never admits a no-dot over-match such as
`notexample.com` for domain `example.com`. -/
theorem C10_rapiddns_dot_boundary (domain : PyStr) (hlow : pyLower domain = domain)
    (r : TextResponse) (h : PyStr) (hm : h ∈ query_rapiddns domain (some r)) :
    (∃ p, p ≠ [] ∧ (∀ c ∈ p, reClassChar c = true) ∧ h = p ++ '.' :: domain) ∧
      h ≠ domain ∧ (domain = "example.com".data → h ≠ "notexample.com".data) := by
  obtain ⟨p, hp, hcls, hshape⟩ := rapiddns_mem_shape hm
  rw [hlow] at hshape
  refine ⟨⟨p, hp, hcls, hshape⟩, ?_, ?_⟩
  · intro hc
    rw [hc] at hshape
    have hlen := congrArg List.length hshape
    simp [List.length_append] at hlen
    omega
  · intro hdom hc
    rw [hc, hdom] at hshape
    have hsuf : ('.' :: "example.com".data) <:+ "notexample.com".data := by
      rw [hshape]
      exact List.suffix_append _ _
    exact absurd hsuf (by decide)

/-- Witness for C10: discharged at a 200 response whose body contains
`a.example.com`. -/
theorem C10_witness :
    ((∃ p, p ≠ [] ∧ (∀ c ∈ p, reClassChar c = true) ∧
        "a.example.com".data = p ++ '.' :: "example.com".data) ∧
      "a.example.com".data ≠ "example.com".data ∧
      ("example.com".data = "example.com".data →
        "a.example.com".data ≠ "notexample.com".data)) :=
  C10_rapiddns_dot_boundary "example.com".data (by decide)
    ⟨200, "see a.example.com here".data⟩ "a.example.com".data (by decide)
